import Mathlib

/-!
Shallow embedding of `klang.cpp`, a tree-walking interpreter for a small
imperative language (lexer, recursive-descent parser, AST, symbol table,
evaluator), together with theorems checking the specification's claims.

Conventions of the embedding:
* C++ `int` is modelled as unbounded `Int` (the programs under study stay far
  from overflow, where C++ behavior is undefined anyway); C++ `/` on `int`
  truncates toward zero, which is `Int.tdiv`.
* exceptions (`throw std::runtime_error`) are modelled by error results that
  carry the state at the moment of the throw, since output already emitted
  is not rolled back by an exception;
* the recursive-descent parser and the loop constructs of the evaluator are
  modelled with an explicit fuel parameter (`Err.outOfFuel` / `PErr.outOfFuel`
  is an artifact of the embedding, not a behavior of the program);
* the symbol table (`std::unordered_map`) is modelled as an association list
  with first-match lookup and in-place update, which has the same `get`
  semantics;
* `SymbolTable::Entry::value` is a `std::string` in the C++ code, written only
  via `std::to_string(int)` and read only via `std::stoi`; as these are
  mutually inverse on every value the interpreter ever stores, the entry
  stores the integer directly.
-/

namespace Klang

/-- The token kinds, from `enum TokenType` in klang.cpp. -/
inductive TokenType where
  | INTEGER | PLUS | MINUS | MUL | DIV | LPAREN | RPAREN | EOF_TOKEN | ID | ASSIGN
  | COMMA | PRINT
  | EQUAL_TO | NOT_EQUAL_TO | GREATER_THAN | LESS_THAN
  | GREATER_THAN_OR_EQUAL_TO | LESS_THAN_OR_EQUAL_TO
  | IF | THEN | END | AND | OR | FOR | TO | WHILE
  deriving DecidableEq, Repr

/-- A token: kind plus literal text, from `class Token`. -/
structure Token where
  type : TokenType
  value : String
  deriving DecidableEq, Repr

/-! ### Lexer

State of `class Lexer` is the remaining text; `current_char` is the head of
the remaining list, or the NUL character once the text is exhausted (C++
reads `'\0'` past the end). -/

/-- C-locale `std::isspace`. -/
def isSpaceC (c : Char) : Bool :=
  c = ' ' || c = '\t' || c = '\n' || c = '\r' || c = '\x0b' || c = '\x0c'

/-- C-locale `std::isdigit`. -/
def isDigitC (c : Char) : Bool := '0' ≤ c && c ≤ '9'

/-- C-locale `std::isalpha`. -/
def isAlphaC (c : Char) : Bool := ('a' ≤ c && c ≤ 'z') || ('A' ≤ c && c ≤ 'Z')

/-- C-locale `std::isalnum`. -/
def isAlnumC (c : Char) : Bool := isAlphaC c || isDigitC c

/-- Errors thrown by `Lexer` and `Parser` (`std::runtime_error` with the
corresponding message). `outOfFuel` is an artifact of the fueled embedding. -/
inductive PErr where
  | invalidCharacter (c : Char)
  | invalidOperator (c : Char)
  | unexpectedToken (value : String)
  | syntaxErrorFactor
  | invalidComparisonOperator
  | invalidStatement
  | outOfFuel
  deriving DecidableEq, Repr

/-- `Lexer::skip_whitespace`: advance while the current char is not NUL and is
whitespace. -/
def skipWhitespace : List Char → List Char
  | [] => []
  | c :: cs => if c ≠ '\x00' ∧ isSpaceC c then skipWhitespace cs else c :: cs

/-- The digit-collecting loop of `Lexer::integer` (`isdigit '\x00'` is false,
so the C++ NUL guard is subsumed). Returns the collected digits and the rest. -/
def takeDigits : List Char → List Char × List Char
  | [] => ([], [])
  | c :: cs =>
    if isDigitC c then
      let (ds, r) := takeDigits cs
      (c :: ds, r)
    else ([], c :: cs)

/-- The collecting loop of `Lexer::handle_identifier` (letters, digits and
underscores; neither matches NUL). -/
def takeIdentChars : List Char → List Char × List Char
  | [] => ([], [])
  | c :: cs =>
    if isAlnumC c ∨ c = '_' then
      let (ds, r) := takeIdentChars cs
      (c :: ds, r)
    else ([], c :: cs)

/-- Numeric value of a digit string, as `std::stoi` computes it on the strings
the lexer produces (a nonempty run of decimal digits). -/
def digitsVal (ds : List Char) : Nat :=
  ds.foldl (fun n c => 10 * n + (c.toNat - 48)) 0

/-- `std::stoi` as used by `Parser::factor` on INTEGER token values, which are
always canonical digit strings. -/
def stoi (st : String) : Int := ((digitsVal st.data : Nat) : Int)

/-- The keyword table of `Lexer::handle_identifier`. -/
def keywordType (st : String) : TokenType :=
  if st = "print" then .PRINT
  else if st = "if" then .IF
  else if st = "then" then .THEN
  else if st = "end" then .END
  else if st = "and" then .AND
  else if st = "or" then .OR
  else if st = "for" then .FOR
  else if st = "to" then .TO
  else if st = "while" then .WHILE
  else .ID

/-- `Lexer::handle_operator`: the operator's first char is already consumed;
`cs` is the remaining text. -/
def handleOperator (op : Char) (cs : List Char) : Except PErr (Token × List Char) :=
  let cur : Char := match cs with | [] => '\x00' | c :: _ => c
  let rest : List Char := match cs with | [] => [] | _ :: r => r
  match op with
  | '=' => if cur = '=' then .ok (⟨.EQUAL_TO, "=="⟩, rest) else .ok (⟨.ASSIGN, "="⟩, cs)
  | '!' => if cur = '=' then .ok (⟨.NOT_EQUAL_TO, "!="⟩, rest) else .error (.invalidOperator '!')
  | '>' => if cur = '=' then .ok (⟨.GREATER_THAN_OR_EQUAL_TO, ">="⟩, rest)
           else .ok (⟨.GREATER_THAN, ">"⟩, cs)
  | '<' => if cur = '=' then .ok (⟨.LESS_THAN_OR_EQUAL_TO, "<="⟩, rest)
           else .ok (⟨.LESS_THAN, "<"⟩, cs)
  | c => .error (.invalidOperator c)

/-- `Lexer::get_next_token`: skip whitespace, then dispatch on the current
character; EOF token once the text (or an embedded NUL) is reached. The
INTEGER token's value is `std::to_string(integer())`, a canonical rendering
of the collected digits. -/
def getNextToken (cs0 : List Char) : Except PErr (Token × List Char) :=
  match skipWhitespace cs0 with
  | [] => .ok (⟨.EOF_TOKEN, ""⟩, [])
  | c :: rest =>
    if c = '\x00' then .ok (⟨.EOF_TOKEN, ""⟩, c :: rest)
    else if isDigitC c then
      let (ds, r) := takeDigits (c :: rest)
      .ok (⟨.INTEGER, toString (digitsVal ds)⟩, r)
    else if isAlphaC c then
      let (ds, r) := takeIdentChars (c :: rest)
      let id := String.mk ds
      .ok (⟨keywordType id, id⟩, r)
    else
      match c with
      | '=' => handleOperator '=' rest
      | '!' => handleOperator '!' rest
      | '>' => handleOperator '>' rest
      | '<' => handleOperator '<' rest
      | '+' => .ok (⟨.PLUS, "+"⟩, rest)
      | '-' => .ok (⟨.MINUS, "-"⟩, rest)
      | '*' => .ok (⟨.MUL, "*"⟩, rest)
      | '/' => .ok (⟨.DIV, "/"⟩, rest)
      | '(' => .ok (⟨.LPAREN, "("⟩, rest)
      | ')' => .ok (⟨.RPAREN, ")"⟩, rest)
      | ',' => .ok (⟨.COMMA, ","⟩, rest)
      | c' => .error (.invalidCharacter c')

/-! ### AST

The ten node classes, as one closed inductive; each node owns its children. -/

/-- AST nodes: BinaryOpNode, NumberNode, VariableNode, AssignNode, PrintNode,
ComparisonNode, LogicalOpNode, IfNode, WhileNode, ForNode. -/
inductive AST where
  | num (value : Int)
  | varRef (name : String)
  | binop (op : TokenType) (left right : AST)
  | cmp (op : TokenType) (left right : AST)
  | logical (op : TokenType) (left right : AST)
  | assign (name : String) (value : AST)
  | printNode (exprs : List AST)
  | ifNode (cond : AST) (body : List AST)
  | whileNode (cond : AST) (body : List AST)
  | forNode (varName : String) (startE endE : AST) (body : List AST)
  deriving Repr

/-! ### Symbol table -/

/-- `SymbolTable::Entry`; the value is stored as the integer it denotes (see
the header comment). -/
structure Entry where
  type : String
  value : Int
  deriving DecidableEq, Repr

/-- The `std::unordered_map` of `SymbolTable`, as an association list. -/
abbrev Table := List (String × Entry)

/-- `SymbolTable::get`: non-failing lookup. -/
def Table.get : Table → String → Option Entry
  | [], _ => none
  | (k, e) :: t, name => if k = name then some e else Table.get t name

/-- `table[name] = entry`: insert-or-assign of `std::unordered_map`. -/
def Table.set : Table → String → Entry → Table
  | [], name, e => [(name, e)]
  | (k, e') :: t, name, e =>
    if k = name then (k, e) :: t else (k, e') :: Table.set t name e

/-- Errors thrown by `Interpreter` (and `SymbolTable::addOrUpdate`).
`badOptionalAccess` models `std::bad_optional_access` from reading the
`lastValue` register before anything has set it; `outOfFuel` is an artifact
of the fueled embedding. -/
inductive Err where
  | divisionByZero
  | undefinedVariable (name : String)
  | typeMismatch (name : String)
  | invalidBinaryOperator
  | invalidComparisonOperator
  | badOptionalAccess
  | outOfFuel
  deriving DecidableEq, Repr

/-- `SymbolTable::addOrUpdate`: reject a rebinding with a different stored
type tag, otherwise insert or overwrite. -/
def addOrUpdate (t : Table) (name ty : String) (value : Int) : Except Err Table :=
  match t.get name with
  | some e => if e.type ≠ ty then .error (.typeMismatch name) else .ok (t.set name ⟨ty, value⟩)
  | none => .ok (t.set name ⟨ty, value⟩)

/-! ### Interpreter -/

/-- Interpreter state: the symbol table, the text written to stdout so far,
and the shared mutable `lastValue` result register (`std::optional<int>`). -/
structure InterpState where
  table : Table
  output : String
  lastValue : Option Int
  deriving DecidableEq, Repr

/-- Result of a visit: normal return, or an exception in flight together with
the state at the moment of the throw. -/
inductive IRes where
  | ok (s : InterpState)
  | err (e : Err) (s : InterpState)
  deriving DecidableEq, Repr

/-- The symbol table of the state a visit ended in (normally or thrown). -/
def IRes.tableOf : IRes → Table
  | .ok s => s.table
  | .err _ s => s.table

/-- The output of the state a visit ended in (normally or thrown). -/
def IRes.outputOf : IRes → String
  | .ok s => s.output
  | .err _ s => s.output

/-- The error of a result, if it is one. -/
def IRes.errOf : IRes → Option Err
  | .ok _ => none
  | .err e _ => some e

mutual

/-- `Interpreter::visit`, one case per node class, with fuel for the loops.
Every recursive call decreases the fuel. -/
def exec : Nat → AST → InterpState → IRes
  | 0, _, s => .err .outOfFuel s
  | fuel + 1, ast, s =>
    match ast with
    | .num v => .ok { s with lastValue := some v }
    | .varRef name =>
      match s.table.get name with
      | none => .err (.undefinedVariable name) s
      | some e => .ok { s with lastValue := some e.value }
    | .binop op l r =>
      match exec fuel l s with
      | .err e s' => .err e s'
      | .ok s1 =>
        match s1.lastValue with
        | none => .err .badOptionalAccess s1
        | some a =>
          match exec fuel r s1 with
          | .err e s' => .err e s'
          | .ok s2 =>
            match s2.lastValue with
            | none => .err .badOptionalAccess s2
            | some b =>
              match op with
              | .PLUS => .ok { s2 with lastValue := some (a + b) }
              | .MINUS => .ok { s2 with lastValue := some (a - b) }
              | .MUL => .ok { s2 with lastValue := some (a * b) }
              | .DIV =>
                if b = 0 then .err .divisionByZero s2
                else .ok { s2 with lastValue := some (Int.tdiv a b) }
              | _ => .err .invalidBinaryOperator s2
    | .cmp op l r =>
      match exec fuel l s with
      | .err e s' => .err e s'
      | .ok s1 =>
        match s1.lastValue with
        | none => .err .badOptionalAccess s1
        | some a =>
          match exec fuel r s1 with
          | .err e s' => .err e s'
          | .ok s2 =>
            match s2.lastValue with
            | none => .err .badOptionalAccess s2
            | some b =>
              match op with
              | .EQUAL_TO => .ok { s2 with lastValue := some (if a = b then 1 else 0) }
              | .NOT_EQUAL_TO => .ok { s2 with lastValue := some (if a ≠ b then 1 else 0) }
              | .GREATER_THAN => .ok { s2 with lastValue := some (if a > b then 1 else 0) }
              | .LESS_THAN => .ok { s2 with lastValue := some (if a < b then 1 else 0) }
              | .GREATER_THAN_OR_EQUAL_TO =>
                .ok { s2 with lastValue := some (if a ≥ b then 1 else 0) }
              | .LESS_THAN_OR_EQUAL_TO =>
                .ok { s2 with lastValue := some (if a ≤ b then 1 else 0) }
              | _ => .err .invalidComparisonOperator s2
    | .logical op l r =>
      match exec fuel l s with
      | .err e s' => .err e s'
      | .ok s1 =>
        match s1.lastValue with
        | none => .err .badOptionalAccess s1
        | some a =>
          if op = .AND ∧ a = 0 then .ok { s1 with lastValue := some 0 }
          else if op = .OR ∧ a ≠ 0 then .ok { s1 with lastValue := some 1 }
          else
            match exec fuel r s1 with
            | .err e s' => .err e s'
            | .ok s2 =>
              match s2.lastValue with
              | none => .err .badOptionalAccess s2
              | some b =>
                let res : Int :=
                  if op = .AND then (if a ≠ 0 ∧ b ≠ 0 then 1 else 0)
                  else (if a ≠ 0 ∨ b ≠ 0 then 1 else 0)
                .ok { s2 with lastValue := some res }
    | .assign name e =>
      match exec fuel e s with
      | .err er s' => .err er s'
      | .ok s1 =>
        match s1.lastValue with
        | none => .err .badOptionalAccess s1
        | some v =>
          match addOrUpdate s1.table name "INTEGER" v with
          | .error er => .err er s1
          | .ok t => .ok { s1 with table := t }
    | .printNode es => printLoop fuel true es s
    | .ifNode c body =>
      match exec fuel c s with
      | .err e s' => .err e s'
      | .ok s1 =>
        match s1.lastValue with
        | none => .err .badOptionalAccess s1
        | some v => if v ≠ 0 then execList fuel body s1 else .ok s1
    | .whileNode c body => whileLoop fuel c body s
    | .forNode v se ee body =>
      match exec fuel se s with
      | .err e s' => .err e s'
      | .ok s1 =>
        match s1.lastValue with
        | none => .err .badOptionalAccess s1
        | some a =>
          match exec fuel ee s1 with
          | .err e s' => .err e s'
          | .ok s2 =>
            match s2.lastValue with
            | none => .err .badOptionalAccess s2
            | some b => forLoop fuel v a b body s2

/-- Sequential execution of a statement list (the body loops of the visits). -/
def execList : Nat → List AST → InterpState → IRes
  | 0, _, s => .err .outOfFuel s
  | _ + 1, [], s => .ok s
  | fuel + 1, a :: as, s =>
    match exec fuel a s with
    | .err e s' => .err e s'
    | .ok s1 => execList fuel as s1

/-- The loop of `Interpreter::visit(WhileNode*)`: re-evaluate the condition
before every iteration. -/
def whileLoop : Nat → AST → List AST → InterpState → IRes
  | 0, _, _, s => .err .outOfFuel s
  | fuel + 1, c, body, s =>
    match exec fuel c s with
    | .err e s' => .err e s'
    | .ok s1 =>
      match s1.lastValue with
      | none => .err .badOptionalAccess s1
      | some v =>
        if v = 0 then .ok s1
        else
          match execList fuel body s1 with
          | .err e s' => .err e s'
          | .ok s2 => whileLoop fuel c body s2

/-- The loop of `Interpreter::visit(ForNode*)`: `for (int i = start; i <= end;
i++) { addOrUpdate(var, "INTEGER", i); body; }`. The counter `i` is a C++
local; the symbol table is written at the top of each iteration. -/
def forLoop : Nat → String → Int → Int → List AST → InterpState → IRes
  | 0, _, _, _, _, s => .err .outOfFuel s
  | fuel + 1, v, i, b, body, s =>
    if i ≤ b then
      match addOrUpdate s.table v "INTEGER" i with
      | .error e => .err e s
      | .ok t =>
        match execList fuel body { s with table := t } with
        | .err e s' => .err e s'
        | .ok s1 => forLoop fuel v (i + 1) b body s1
    else .ok s

/-- The loop of `Interpreter::visit(PrintNode*)`: a space before every
expression but the first, each value written right after its evaluation, a
newline after the loop. -/
def printLoop : Nat → Bool → List AST → InterpState → IRes
  | 0, _, _, s => .err .outOfFuel s
  | _ + 1, _, [], s => .ok { s with output := s.output ++ "\n" }
  | fuel + 1, first, e :: es, s =>
    let s0 := if first then s else { s with output := s.output ++ " " }
    match exec fuel e s0 with
    | .err er s' => .err er s'
    | .ok s1 =>
      match s1.lastValue with
      | none => .err .badOptionalAccess s1
      | some v => printLoop fuel false es { s1 with output := s1.output ++ toString v }

end

/-! ### Parser

`class Parser` pulls tokens on demand from the lexer; its state is the
current token plus the unread remainder of the text. The grammar functions
are fueled; the fuel bounds the recursion depth. -/

/-- Parser state: `current_token` and the lexer's remaining text. -/
structure PSt where
  cur : Token
  rest : List Char
  deriving DecidableEq, Repr

/-- `Parser::eat`: consume the current token if its kind matches, pulling the
next token from the lexer, else throw "Unexpected token". -/
def eat (tt : TokenType) (ps : PSt) : Except PErr PSt :=
  if ps.cur.type = tt then
    match getNextToken ps.rest with
    | .error e => .error e
    | .ok (t, cs) => .ok ⟨t, cs⟩
  else .error (.unexpectedToken ps.cur.value)

mutual

/-- `Parser::factor`: INTEGER, ID, or a parenthesized expression. -/
def factor : Nat → PSt → Except PErr (AST × PSt)
  | 0, _ => .error .outOfFuel
  | fuel + 1, ps =>
    let token := ps.cur
    if token.type = .INTEGER then
      match eat .INTEGER ps with
      | .error e => .error e
      | .ok ps' => .ok (.num (stoi token.value), ps')
    else if token.type = .ID then
      match eat .ID ps with
      | .error e => .error e
      | .ok ps' => .ok (.varRef token.value, ps')
    else if token.type = .LPAREN then
      match eat .LPAREN ps with
      | .error e => .error e
      | .ok ps1 =>
        match expr fuel ps1 with
        | .error e => .error e
        | .ok (node, ps2) =>
          match eat .RPAREN ps2 with
          | .error e => .error e
          | .ok ps3 => .ok (node, ps3)
    else .error .syntaxErrorFactor

/-- `Parser::term`: a factor followed by `*`/`/` factors. -/
def term : Nat → PSt → Except PErr (AST × PSt)
  | 0, _ => .error .outOfFuel
  | fuel + 1, ps =>
    match factor fuel ps with
    | .error e => .error e
    | .ok (node, ps1) => termRest fuel node ps1

/-- The `while (MUL || DIV)` loop of `Parser::term`. -/
def termRest : Nat → AST → PSt → Except PErr (AST × PSt)
  | 0, _, _ => .error .outOfFuel
  | fuel + 1, node, ps =>
    if ps.cur.type = .MUL ∨ ps.cur.type = .DIV then
      let token := ps.cur
      match eat token.type ps with
      | .error e => .error e
      | .ok ps1 =>
        match factor fuel ps1 with
        | .error e => .error e
        | .ok (rhs, ps2) => termRest fuel (.binop token.type node rhs) ps2
    else .ok (node, ps)

/-- `Parser::expr`: a term followed by `+`/`-` terms. -/
def expr : Nat → PSt → Except PErr (AST × PSt)
  | 0, _ => .error .outOfFuel
  | fuel + 1, ps =>
    match term fuel ps with
    | .error e => .error e
    | .ok (node, ps1) => exprRest fuel node ps1

/-- The `while (PLUS || MINUS)` loop of `Parser::expr`. -/
def exprRest : Nat → AST → PSt → Except PErr (AST × PSt)
  | 0, _, _ => .error .outOfFuel
  | fuel + 1, node, ps =>
    if ps.cur.type = .PLUS ∨ ps.cur.type = .MINUS then
      let token := ps.cur
      match eat token.type ps with
      | .error e => .error e
      | .ok ps1 =>
        match term fuel ps1 with
        | .error e => .error e
        | .ok (rhs, ps2) => exprRest fuel (.binop token.type node rhs) ps2
    else .ok (node, ps)

/-- `Parser::simple_condition`: `expr CMP expr`, exactly one comparison. -/
def simpleCondition : Nat → PSt → Except PErr (AST × PSt)
  | 0, _ => .error .outOfFuel
  | fuel + 1, ps =>
    match expr fuel ps with
    | .error e => .error e
    | .ok (left, ps1) =>
      let op := ps1.cur.type
      if op = .EQUAL_TO ∨ op = .NOT_EQUAL_TO ∨ op = .GREATER_THAN ∨ op = .LESS_THAN
          ∨ op = .GREATER_THAN_OR_EQUAL_TO ∨ op = .LESS_THAN_OR_EQUAL_TO then
        match eat op ps1 with
        | .error e => .error e
        | .ok ps2 =>
          match expr fuel ps2 with
          | .error e => .error e
          | .ok (right, ps3) => .ok (.cmp op left right, ps3)
      else .error .invalidComparisonOperator

/-- `Parser::condition`: a simple condition followed by `and`/`or` simple
conditions, left-associated. -/
def condition : Nat → PSt → Except PErr (AST × PSt)
  | 0, _ => .error .outOfFuel
  | fuel + 1, ps =>
    match simpleCondition fuel ps with
    | .error e => .error e
    | .ok (node, ps1) => condRest fuel node ps1

/-- The `while (AND || OR)` loop of `Parser::condition`. -/
def condRest : Nat → AST → PSt → Except PErr (AST × PSt)
  | 0, _, _ => .error .outOfFuel
  | fuel + 1, node, ps =>
    if ps.cur.type = .AND ∨ ps.cur.type = .OR then
      let token := ps.cur
      match eat token.type ps with
      | .error e => .error e
      | .ok ps1 =>
        match simpleCondition fuel ps1 with
        | .error e => .error e
        | .ok (rhs, ps2) => condRest fuel (.logical token.type node rhs) ps2
    else .ok (node, ps)

/-- The `while (current != END)` body loop of the if/while/for statements. -/
def bodyLoop : Nat → PSt → Except PErr (List AST × PSt)
  | 0, _ => .error .outOfFuel
  | fuel + 1, ps =>
    if ps.cur.type ≠ .END then
      match statement fuel ps with
      | .error e => .error e
      | .ok (st, ps1) =>
        match bodyLoop fuel ps1 with
        | .error e => .error e
        | .ok (sts, ps2) => .ok (st :: sts, ps2)
    else .ok ([], ps)

/-- `Parser::if_statement`. -/
def ifStatement : Nat → PSt → Except PErr (AST × PSt)
  | 0, _ => .error .outOfFuel
  | fuel + 1, ps =>
    match eat .IF ps with
    | .error e => .error e
    | .ok ps1 =>
      match condition fuel ps1 with
      | .error e => .error e
      | .ok (cond, ps2) =>
        match eat .THEN ps2 with
        | .error e => .error e
        | .ok ps3 =>
          match bodyLoop fuel ps3 with
          | .error e => .error e
          | .ok (body, ps4) =>
            match eat .END ps4 with
            | .error e => .error e
            | .ok ps5 => .ok (.ifNode cond body, ps5)

/-- `Parser::while_statement`. -/
def whileStatement : Nat → PSt → Except PErr (AST × PSt)
  | 0, _ => .error .outOfFuel
  | fuel + 1, ps =>
    match eat .WHILE ps with
    | .error e => .error e
    | .ok ps1 =>
      match condition fuel ps1 with
      | .error e => .error e
      | .ok (cond, ps2) =>
        match eat .THEN ps2 with
        | .error e => .error e
        | .ok ps3 =>
          match bodyLoop fuel ps3 with
          | .error e => .error e
          | .ok (body, ps4) =>
            match eat .END ps4 with
            | .error e => .error e
            | .ok ps5 => .ok (.whileNode cond body, ps5)

/-- `Parser::for_statement`. -/
def forStatement : Nat → PSt → Except PErr (AST × PSt)
  | 0, _ => .error .outOfFuel
  | fuel + 1, ps =>
    match eat .FOR ps with
    | .error e => .error e
    | .ok ps1 =>
      let varName := ps1.cur.value
      match eat .ID ps1 with
      | .error e => .error e
      | .ok ps2 =>
        match eat .ASSIGN ps2 with
        | .error e => .error e
        | .ok ps3 =>
          match expr fuel ps3 with
          | .error e => .error e
          | .ok (startE, ps4) =>
            match eat .TO ps4 with
            | .error e => .error e
            | .ok ps5 =>
              match expr fuel ps5 with
              | .error e => .error e
              | .ok (endE, ps6) =>
                match bodyLoop fuel ps6 with
                | .error e => .error e
                | .ok (body, ps7) =>
                  match eat .END ps7 with
                  | .error e => .error e
                  | .ok ps8 => .ok (.forNode varName startE endE body, ps8)

/-- The `while (COMMA)` loop of `Parser::print_statement`. -/
def printArgsRest : Nat → List AST → PSt → Except PErr (List AST × PSt)
  | 0, _, _ => .error .outOfFuel
  | fuel + 1, acc, ps =>
    if ps.cur.type = .COMMA then
      match eat .COMMA ps with
      | .error e => .error e
      | .ok ps1 =>
        match expr fuel ps1 with
        | .error e => .error e
        | .ok (e, ps2) => printArgsRest fuel (acc ++ [e]) ps2
    else .ok (acc, ps)

/-- `Parser::print_statement`. -/
def printStatement : Nat → PSt → Except PErr (AST × PSt)
  | 0, _ => .error .outOfFuel
  | fuel + 1, ps =>
    match eat .PRINT ps with
    | .error e => .error e
    | .ok ps1 =>
      match eat .LPAREN ps1 with
      | .error e => .error e
      | .ok ps2 =>
        match expr fuel ps2 with
        | .error e => .error e
        | .ok (e, ps3) =>
          match printArgsRest fuel [e] ps3 with
          | .error er => .error er
          | .ok (es, ps4) =>
            match eat .RPAREN ps4 with
            | .error er => .error er
            | .ok ps5 => .ok (.printNode es, ps5)

/-- `Parser::assignment_statement`. -/
def assignmentStatement : Nat → PSt → Except PErr (AST × PSt)
  | 0, _ => .error .outOfFuel
  | fuel + 1, ps =>
    let varName := ps.cur.value
    match eat .ID ps with
    | .error e => .error e
    | .ok ps1 =>
      match eat .ASSIGN ps1 with
      | .error e => .error e
      | .ok ps2 =>
        match expr fuel ps2 with
        | .error e => .error e
        | .ok (e, ps3) => .ok (.assign varName e, ps3)

/-- `Parser::statement`: dispatch on the current token kind. -/
def statement : Nat → PSt → Except PErr (AST × PSt)
  | 0, _ => .error .outOfFuel
  | fuel + 1, ps =>
    match ps.cur.type with
    | .IF => ifStatement fuel ps
    | .FOR => forStatement fuel ps
    | .WHILE => whileStatement fuel ps
    | .ID => assignmentStatement fuel ps
    | .PRINT => printStatement fuel ps
    | _ => .error .invalidStatement

end

/-! ### Drivers

`main` constructs the parser (which pulls the first token) and then loops:
parse one statement, execute it, until the EOF token. -/

/-- Top-level error: from the parser/lexer or from the evaluator. -/
inductive TopErr where
  | parseErr (e : PErr)
  | runErr (e : Err)
  deriving DecidableEq, Repr

/-- Result of a whole run, with the state reached when an exception escapes
to `main`'s catch (stdout already written is not rolled back). -/
inductive DRes where
  | ok (s : InterpState)
  | err (e : TopErr) (s : InterpState)
  deriving DecidableEq, Repr

/-- The output accumulated by a run. -/
def DRes.outputOf : DRes → String
  | .ok s => s.output
  | .err _ s => s.output

/-- Fresh interpreter state: empty table, no output, unset `lastValue`. -/
def initState : InterpState := ⟨[], "", none⟩

/-- The `while (current_token_type() != EOF_TOKEN)` loop of `main`: parse one
statement, execute it, repeat. -/
def interleavedLoop : Nat → PSt → InterpState → DRes
  | 0, _, s => .err (.runErr .outOfFuel) s
  | fuel + 1, ps, s =>
    if ps.cur.type = .EOF_TOKEN then .ok s
    else
      match statement fuel ps with
      | .error e => .err (.parseErr e) s
      | .ok (ast, ps') =>
        match exec fuel ast s with
        | .err e s' => .err (.runErr e) s'
        | .ok s' => interleavedLoop fuel ps' s'

/-- The `Parser` constructor: pull the first token. -/
def mkParser (text : String) : Except PErr PSt :=
  match getNextToken text.data with
  | .error e => .error e
  | .ok (t, cs) => .ok ⟨t, cs⟩

/-- The whole pipeline exactly as `main` runs it on an in-memory program
text. -/
def runProgram (text : String) (fuel : Nat) : DRes :=
  match mkParser text with
  | .error e => .err (.parseErr e) initState
  | .ok ps => interleavedLoop fuel ps initState

/-- Parse all statements up to EOF into a fully materialized AST list,
executing nothing. -/
def parseLoop : Nat → PSt → Except PErr (List AST)
  | 0, _ => .error .outOfFuel
  | fuel + 1, ps =>
    if ps.cur.type = .EOF_TOKEN then .ok []
    else
      match statement fuel ps with
      | .error e => .error e
      | .ok (ast, ps') =>
        match parseLoop fuel ps' with
        | .error e => .error e
        | .ok asts => .ok (ast :: asts)

/-- Execute a fully materialized statement list in order. -/
def execProgram : Nat → List AST → InterpState → DRes
  | 0, _, s => .err (.runErr .outOfFuel) s
  | _ + 1, [], s => .ok s
  | fuel + 1, a :: as, s =>
    match exec fuel a s with
    | .err e s' => .err (.runErr e) s'
    | .ok s' => execProgram fuel as s'

/-- The alternative driver the spec describes: materialize the whole program's
AST first, then evaluate it. Compared against `runProgram`. -/
def runBatch (text : String) (fuel : Nat) : DRes :=
  match mkParser text with
  | .error e => .err (.parseErr e) initState
  | .ok ps =>
    match parseLoop fuel ps with
    | .error e => .err (.parseErr e) initState
    | .ok asts => execProgram fuel asts initState

/-! ### Auxiliary notions used by the theorems -/

/-- The pure expression node kinds (NumberLiteral, VariableRef, BinaryOp,
Comparison, LogicalOp), with all children again pure expressions. -/
def isExpr : AST → Bool
  | .num _ => true
  | .varRef _ => true
  | .binop _ l r => isExpr l && isExpr r
  | .cmp _ l r => isExpr l && isExpr r
  | .logical _ l r => isExpr l && isExpr r
  | _ => false

/-- Recursion depth of an expression node (enough fuel for `exec`). -/
def depthE : AST → Nat
  | .binop _ l r => max (depthE l) (depthE r) + 1
  | .cmp _ l r => max (depthE l) (depthE r) + 1
  | .logical _ l r => max (depthE l) (depthE r) + 1
  | _ => 1

/-- Pure value semantics of expression nodes: the projection of `exec` to
expression nodes, which read the table but never touch it, the output, or
the fuel. Non-expression constructors are unreachable under `isExpr`. -/
def evalE : AST → Table → Except Err Int
  | .num v, _ => .ok v
  | .varRef name, t =>
    match t.get name with
    | none => .error (.undefinedVariable name)
    | some e => .ok e.value
  | .binop op l r, t =>
    match evalE l t with
    | .error e => .error e
    | .ok a =>
      match evalE r t with
      | .error e => .error e
      | .ok b =>
        match op with
        | .PLUS => .ok (a + b)
        | .MINUS => .ok (a - b)
        | .MUL => .ok (a * b)
        | .DIV => if b = 0 then .error .divisionByZero else .ok (Int.tdiv a b)
        | _ => .error .invalidBinaryOperator
  | .cmp op l r, t =>
    match evalE l t with
    | .error e => .error e
    | .ok a =>
      match evalE r t with
      | .error e => .error e
      | .ok b =>
        match op with
        | .EQUAL_TO => .ok (if a = b then 1 else 0)
        | .NOT_EQUAL_TO => .ok (if a ≠ b then 1 else 0)
        | .GREATER_THAN => .ok (if a > b then 1 else 0)
        | .LESS_THAN => .ok (if a < b then 1 else 0)
        | .GREATER_THAN_OR_EQUAL_TO => .ok (if a ≥ b then 1 else 0)
        | .LESS_THAN_OR_EQUAL_TO => .ok (if a ≤ b then 1 else 0)
        | _ => .error .invalidComparisonOperator
  | .logical op l r, t =>
    match evalE l t with
    | .error e => .error e
    | .ok a =>
      if op = .AND ∧ a = 0 then .ok 0
      else if op = .OR ∧ a ≠ 0 then .ok 1
      else
        match evalE r t with
        | .error e => .error e
        | .ok b =>
          .ok (if op = .AND then (if a ≠ 0 ∧ b ≠ 0 then 1 else 0)
               else (if a ≠ 0 ∨ b ≠ 0 then 1 else 0))
  | _, _ => .error .invalidBinaryOperator

/-- A sequence of pure expressions evaluating to a list of values over a
fixed table. -/
inductive ExprsEval (t : Table) : List AST → List Int → Prop where
  | nil : ExprsEval t [] []
  | cons {e : AST} {es : List AST} {v : Int} {vs : List Int} :
      isExpr e = true → evalE e t = .ok v → ExprsEval t es vs →
      ExprsEval t (e :: es) (v :: vs)

/-- Concatenate strings with a separator between consecutive elements. -/
def joinSep (sep : String) : List String → String
  | [] => ""
  | [x] => x
  | x :: xs => x ++ sep ++ joinSep sep xs

/-- `n` consecutive integers starting at `a`. -/
def intRangeAux : Nat → Int → List Int
  | 0, _ => []
  | n + 1, a => a :: intRangeAux n (a + 1)

/-- The integers from `a` to `b` inclusive (empty when `b < a`). -/
def intRange (a b : Int) : List Int := intRangeAux (b + 1 - a).toNat a

/-- One output line per integer of `intRange a b`. -/
def rangeOut (a b : Int) : String :=
  joinSep "" ((intRange a b).map (fun k => toString k ++ "\n"))

/-- Every entry of the table carries the type tag INTEGER. -/
def intOnly (t : Table) : Prop := ∀ p ∈ t, (p.2).type = "INTEGER"

/-- The variable is absent or already bound at type INTEGER (what
`addOrUpdate` needs in order not to throw). -/
def intCompat (t : Table) (name : String) : Prop :=
  t.get name = none ∨ ∃ e, t.get name = some e ∧ e.type = "INTEGER"

/-- Invariant carried through every visit: the resulting table still holds
only INTEGER entries, and the result is not a TypeMismatch throw. -/
def Inv (r : IRes) : Prop :=
  intOnly r.tableOf ∧ ∀ n st, r ≠ .err (.typeMismatch n) st

/-! ## Theorems -/

/-! ### Symbol table lemmas -/

theorem get_set_same (t : Table) (name : String) (e : Entry) :
    (t.set name e).get name = some e := by
  induction t with
  | nil => simp [Table.set, Table.get]
  | cons p t ih =>
    obtain ⟨k, e'⟩ := p
    by_cases h : k = name <;> simp [Table.set, Table.get, h, ih]

theorem get_set_other (t : Table) (name m : String) (e : Entry) (h : m ≠ name) :
    (t.set name e).get m = t.get m := by
  have h' : name ≠ m := Ne.symm h
  induction t with
  | nil => simp [Table.set, Table.get, h']
  | cons p t ih =>
    obtain ⟨k, e'⟩ := p
    by_cases hk : k = name
    · subst hk
      simp [Table.set, Table.get, h']
    · simp [Table.set, Table.get, hk, ih]

theorem set_absorb (t : Table) (name : String) (e e' : Entry) :
    (t.set name e').set name e = t.set name e := by
  induction t with
  | nil => simp [Table.set]
  | cons p t ih =>
    obtain ⟨k, e''⟩ := p
    by_cases h : k = name <;> simp [Table.set, h, ih]

theorem get_mem (t : Table) (name : String) (e : Entry) (h : t.get name = some e) :
    (name, e) ∈ t := by
  induction t with
  | nil => simp [Table.get] at h
  | cons p t ih =>
    obtain ⟨k, e'⟩ := p
    by_cases hk : k = name
    · subst hk
      simp [Table.get] at h
      simp [h]
    · simp [Table.get, hk] at h
      exact List.mem_cons_of_mem _ (ih h)

theorem intOnly_set (t : Table) (name : String) (v : Int) (h : intOnly t) :
    intOnly (t.set name ⟨"INTEGER", v⟩) := by
  induction t with
  | nil => simp [Table.set, intOnly]
  | cons p t ih =>
    obtain ⟨k, e'⟩ := p
    have ht : intOnly t := fun q hq => h q (List.mem_cons_of_mem _ hq)
    by_cases hk : k = name
    · subst hk
      simp only [Table.set, if_pos rfl]
      intro q hq
      rcases List.mem_cons.mp hq with hq | hq
      · simp [hq]
      · exact ht q hq
    · simp only [Table.set, if_neg hk]
      intro q hq
      rcases List.mem_cons.mp hq with hq | hq
      · exact h q (by simp [hq])
      · exact ih ht q hq

theorem addOrUpdate_int (t : Table) (name : String) (v : Int) (h : intOnly t) :
    addOrUpdate t name "INTEGER" v = .ok (t.set name ⟨"INTEGER", v⟩) ∧
      intOnly (t.set name ⟨"INTEGER", v⟩) := by
  refine ⟨?_, intOnly_set t name v h⟩
  unfold addOrUpdate
  cases hg : t.get name with
  | none => rfl
  | some e =>
    have : e.type = "INTEGER" := h (name, e) (get_mem t name e hg)
    simp [this]

theorem addOrUpdate_compat (t : Table) (name : String) (v : Int) (h : intCompat t name) :
    addOrUpdate t name "INTEGER" v = .ok (t.set name ⟨"INTEGER", v⟩) := by
  unfold addOrUpdate
  rcases h with h | ⟨e, he, hty⟩
  · simp [h]
  · simp [he, hty]

theorem intCompat_set (t : Table) (name : String) (v : Int) :
    intCompat (t.set name ⟨"INTEGER", v⟩) name := by
  right
  exact ⟨_, get_set_same t name _, rfl⟩

/-! ### Truncated division -/

/-- `Int.tdiv` (the C++ `/` on `int`) is the truncated-toward-zero quotient:
its magnitude is the magnitude quotient and its sign the product's sign. -/
theorem tdiv_trunc (a b : Int) :
    Int.tdiv a b = (a * b).sign * ((a.natAbs / b.natAbs : Nat) : Int) := by
  rcases a with m | m <;> rcases b with n | n
  · show Int.ofNat (m / n) = (Int.ofNat m * Int.ofNat n).sign * ((m / n : Nat) : Int)
    rcases Nat.eq_zero_or_pos (m * n) with h | h
    · rcases Nat.mul_eq_zero.mp h with h | h <;> simp [h]
    · have h1 : (Int.ofNat m * Int.ofNat n).sign = 1 := by
        rw [Int.sign_eq_one_iff_pos]
        show (0 : Int) < (m : Int) * (n : Int)
        exact_mod_cast h
      rw [h1, one_mul]
      rfl
  · show -Int.ofNat (m / (n + 1))
        = (Int.ofNat m * Int.negSucc n).sign * ((m / (n + 1) : Nat) : Int)
    cases m with
    | zero => simp
    | succ m =>
      have h1 : (Int.ofNat (m + 1) * Int.negSucc n).sign = -1 := by
        rw [Int.sign_eq_neg_one_iff_neg]
        refine mul_neg_of_pos_of_neg ?_ (Int.negSucc_lt_zero n)
        show (0 : Int) < ((m + 1 : Nat) : Int)
        exact_mod_cast Nat.succ_pos m
      rw [h1, neg_one_mul]
      rfl
  · show -Int.ofNat ((m + 1) / n)
        = (Int.negSucc m * Int.ofNat n).sign * (((m + 1) / n : Nat) : Int)
    cases n with
    | zero => simp
    | succ n =>
      have h1 : (Int.negSucc m * Int.ofNat (n + 1)).sign = -1 := by
        rw [Int.sign_eq_neg_one_iff_neg]
        refine mul_neg_of_neg_of_pos (Int.negSucc_lt_zero m) ?_
        show (0 : Int) < ((n + 1 : Nat) : Int)
        exact_mod_cast Nat.succ_pos n
      rw [h1, neg_one_mul]
      rfl
  · show Int.ofNat ((m + 1) / (n + 1))
        = (Int.negSucc m * Int.negSucc n).sign * (((m + 1) / (n + 1) : Nat) : Int)
    have h1 : (Int.negSucc m * Int.negSucc n).sign = 1 := by
      rw [Int.sign_eq_one_iff_pos]
      exact mul_pos_of_neg_of_neg (Int.negSucc_lt_zero m) (Int.negSucc_lt_zero n)
    rw [h1, one_mul]
    rfl

/-! ### Purity of expression evaluation

`exec` on a pure expression node only reads the table: on success it sets
`lastValue` to the value `evalE` computes; on failure it throws the error
`evalE` computes, from a state with the same table and output. -/

theorem exec_expr : ∀ (a : AST) (fuel : Nat) (s : InterpState),
    isExpr a = true → depthE a ≤ fuel →
    (∀ v, evalE a s.table = .ok v → exec fuel a s = .ok { s with lastValue := some v }) ∧
    (∀ er, evalE a s.table = .error er →
      ∃ lv, exec fuel a s = .err er { s with lastValue := lv })
  | .num v, fuel, s, _, hd => by
    cases fuel with
    | zero => simp [depthE] at hd
    | succ fuel =>
      constructor
      · intro w hw
        simp only [evalE, Except.ok.injEq] at hw
        simp [exec, hw]
      · intro er her
        simp [evalE] at her
  | .varRef name, fuel, s, _, hd => by
    cases fuel with
    | zero => simp [depthE] at hd
    | succ fuel =>
      constructor
      · intro w hw
        simp only [evalE] at hw
        cases hg : s.table.get name with
        | none => rw [hg] at hw; cases hw
        | some e =>
          rw [hg] at hw
          cases hw
          simp [exec, hg]
      · intro er her
        simp only [evalE] at her
        cases hg : s.table.get name with
        | none =>
          rw [hg] at her
          cases her
          exact ⟨s.lastValue, by simp [exec, hg]⟩
        | some e => rw [hg] at her; cases her
  | .binop op l r, fuel, s, hx, hd => by
    cases fuel with
    | zero => simp [depthE] at hd
    | succ fuel =>
      simp only [isExpr, Bool.and_eq_true] at hx
      obtain ⟨hxl, hxr⟩ := hx
      simp only [depthE] at hd
      obtain ⟨ihlo, ihle⟩ := exec_expr l fuel s hxl (by omega)
      cases hl : evalE l s.table with
      | error er =>
        obtain ⟨lv, hex⟩ := ihle er hl
        constructor
        · intro w hw
          simp only [evalE, hl] at hw
          exact Except.noConfusion hw
        · intro er' her
          simp only [evalE, hl] at her
          cases her
          exact ⟨lv, by simp [exec, hex]⟩
      | ok av =>
        have hexl : exec fuel l s = .ok { s with lastValue := some av } := ihlo av hl
        obtain ⟨ihro, ihre⟩ :=
          exec_expr r fuel { s with lastValue := some av } hxr (by omega)
        cases hr : evalE r s.table with
        | error er =>
          obtain ⟨lv, hex⟩ := ihre er (by simpa using hr)
          constructor
          · intro w hw
            simp only [evalE, hl, hr] at hw
            exact Except.noConfusion hw
          · intro er' her
            simp only [evalE, hl, hr] at her
            cases her
            exact ⟨lv, by simp [exec, hexl, hex]⟩
        | ok bv =>
          have hexr : exec fuel r { s with lastValue := some av }
              = .ok { s with lastValue := some bv } := by
            simpa using ihro bv (by simpa using hr)
          constructor
          · intro w hw
            simp only [evalE, hl, hr] at hw
            cases op <;> simp_all [exec, hexl, hexr]
            split_ifs at hw ⊢
            simp_all
          · intro er' her
            simp only [evalE, hl, hr] at her
            cases op <;> simp_all [exec, hexl, hexr]
            split_ifs at her ⊢
            simp_all
  | .cmp op l r, fuel, s, hx, hd => by
    cases fuel with
    | zero => simp [depthE] at hd
    | succ fuel =>
      simp only [isExpr, Bool.and_eq_true] at hx
      obtain ⟨hxl, hxr⟩ := hx
      simp only [depthE] at hd
      obtain ⟨ihlo, ihle⟩ := exec_expr l fuel s hxl (by omega)
      cases hl : evalE l s.table with
      | error er =>
        obtain ⟨lv, hex⟩ := ihle er hl
        constructor
        · intro w hw
          simp only [evalE, hl] at hw
          exact Except.noConfusion hw
        · intro er' her
          simp only [evalE, hl] at her
          cases her
          exact ⟨lv, by simp [exec, hex]⟩
      | ok av =>
        have hexl : exec fuel l s = .ok { s with lastValue := some av } := ihlo av hl
        obtain ⟨ihro, ihre⟩ :=
          exec_expr r fuel { s with lastValue := some av } hxr (by omega)
        cases hr : evalE r s.table with
        | error er =>
          obtain ⟨lv, hex⟩ := ihre er (by simpa using hr)
          constructor
          · intro w hw
            simp only [evalE, hl, hr] at hw
            exact Except.noConfusion hw
          · intro er' her
            simp only [evalE, hl, hr] at her
            cases her
            exact ⟨lv, by simp [exec, hexl, hex]⟩
        | ok bv =>
          have hexr : exec fuel r { s with lastValue := some av }
              = .ok { s with lastValue := some bv } := by
            simpa using ihro bv (by simpa using hr)
          constructor
          · intro w hw
            simp only [evalE, hl, hr] at hw
            cases op <;> simp_all [exec, hexl, hexr]
          · intro er' her
            simp only [evalE, hl, hr] at her
            cases op <;> simp_all [exec, hexl, hexr]
  | .logical op l r, fuel, s, hx, hd => by
    cases fuel with
    | zero => simp [depthE] at hd
    | succ fuel =>
      simp only [isExpr, Bool.and_eq_true] at hx
      obtain ⟨hxl, hxr⟩ := hx
      simp only [depthE] at hd
      obtain ⟨ihlo, ihle⟩ := exec_expr l fuel s hxl (by omega)
      cases hl : evalE l s.table with
      | error er =>
        obtain ⟨lv, hex⟩ := ihle er hl
        constructor
        · intro w hw
          simp only [evalE, hl] at hw
          exact Except.noConfusion hw
        · intro er' her
          simp only [evalE, hl] at her
          cases her
          exact ⟨lv, by simp [exec, hex]⟩
      | ok av =>
        have hexl : exec fuel l s = .ok { s with lastValue := some av } := ihlo av hl
        obtain ⟨ihro, ihre⟩ :=
          exec_expr r fuel { s with lastValue := some av } hxr (by omega)
        by_cases hand : op = TokenType.AND ∧ av = 0
        · constructor
          · intro w hw
            simp only [evalE, hl, if_pos hand] at hw
            cases hw
            simp [exec, hexl, if_pos hand]
          · intro er' her
            simp only [evalE, hl, if_pos hand] at her
            exact Except.noConfusion her
        · by_cases hor : op = TokenType.OR ∧ av ≠ 0
          · constructor
            · intro w hw
              simp only [evalE, hl, if_neg hand, if_pos hor] at hw
              cases hw
              simp [exec, hexl, if_neg hand, if_pos hor]
            · intro er' her
              simp only [evalE, hl, if_neg hand, if_pos hor] at her
              exact Except.noConfusion her
          · cases hr : evalE r s.table with
            | error er =>
              obtain ⟨lv, hex⟩ := ihre er (by simpa using hr)
              constructor
              · intro w hw
                simp only [evalE, hl, if_neg hand, if_neg hor, hr] at hw
                exact Except.noConfusion hw
              · intro er' her
                simp only [evalE, hl, if_neg hand, if_neg hor, hr] at her
                cases her
                exact ⟨lv, by simp [exec, hexl, if_neg hand, if_neg hor, hex]⟩
            | ok bv =>
              have hexr : exec fuel r { s with lastValue := some av }
                  = .ok { s with lastValue := some bv } := by
                simpa using ihro bv (by simpa using hr)
              constructor
              · intro w hw
                simp only [evalE, hl, if_neg hand, if_neg hor, hr, Except.ok.injEq] at hw
                simp [exec, hexl, if_neg hand, if_neg hor, hexr, hw]
              · intro er' her
                simp only [evalE, hl, if_neg hand, if_neg hor, hr] at her
                exact Except.noConfusion her
  | .assign n e, fuel, s, hx, hd => by simp [isExpr] at hx
  | .printNode es, fuel, s, hx, hd => by simp [isExpr] at hx
  | .ifNode c b, fuel, s, hx, hd => by simp [isExpr] at hx
  | .whileNode c b, fuel, s, hx, hd => by simp [isExpr] at hx
  | .forNode v a b bd, fuel, s, hx, hd => by simp [isExpr] at hx

/-- Frame property of expression nodes: for any fuel, evaluating a pure
expression node ends (normally or with a throw) in a state with the table
and the output it started from. -/
theorem exec_expr_frame : ∀ (a : AST) (fuel : Nat) (s : InterpState), isExpr a = true →
    (exec fuel a s).tableOf = s.table ∧ (exec fuel a s).outputOf = s.output
  | _, 0, s, _ => by simp [exec, IRes.tableOf, IRes.outputOf]
  | .num v, fuel + 1, s, _ => by simp [exec, IRes.tableOf, IRes.outputOf]
  | .varRef n, fuel + 1, s, _ => by
    cases hg : s.table.get n <;> simp [exec, hg, IRes.tableOf, IRes.outputOf]
  | .binop op l r, fuel + 1, s, hx => by
    simp only [isExpr, Bool.and_eq_true] at hx
    obtain ⟨hxl, hxr⟩ := hx
    have ihl := exec_expr_frame l fuel s hxl
    cases hl : exec fuel l s with
    | err e s' =>
      rw [hl] at ihl
      simp only [IRes.tableOf, IRes.outputOf] at ihl
      simp [exec, hl, IRes.tableOf, IRes.outputOf, ihl]
    | ok s1 =>
      rw [hl] at ihl
      simp only [IRes.tableOf, IRes.outputOf] at ihl
      cases hlv : s1.lastValue with
      | none => simp [exec, hl, hlv, IRes.tableOf, IRes.outputOf, ihl]
      | some a =>
        have ihr := exec_expr_frame r fuel s1 hxr
        cases hr : exec fuel r s1 with
        | err e s' =>
          rw [hr] at ihr
          simp only [IRes.tableOf, IRes.outputOf] at ihr
          simp [exec, hl, hlv, hr, IRes.tableOf, IRes.outputOf, ihr, ihl]
        | ok s2 =>
          rw [hr] at ihr
          simp only [IRes.tableOf, IRes.outputOf] at ihr
          cases hlv2 : s2.lastValue with
          | none => simp [exec, hl, hlv, hr, hlv2, IRes.tableOf, IRes.outputOf, ihr, ihl]
          | some b =>
            cases op <;>
              simp_all [exec, hl, hlv, hr, hlv2, IRes.tableOf, IRes.outputOf] <;>
              split_ifs <;> simp_all [IRes.tableOf, IRes.outputOf]
  | .cmp op l r, fuel + 1, s, hx => by
    simp only [isExpr, Bool.and_eq_true] at hx
    obtain ⟨hxl, hxr⟩ := hx
    have ihl := exec_expr_frame l fuel s hxl
    cases hl : exec fuel l s with
    | err e s' =>
      rw [hl] at ihl
      simp only [IRes.tableOf, IRes.outputOf] at ihl
      simp [exec, hl, IRes.tableOf, IRes.outputOf, ihl]
    | ok s1 =>
      rw [hl] at ihl
      simp only [IRes.tableOf, IRes.outputOf] at ihl
      cases hlv : s1.lastValue with
      | none => simp [exec, hl, hlv, IRes.tableOf, IRes.outputOf, ihl]
      | some a =>
        have ihr := exec_expr_frame r fuel s1 hxr
        cases hr : exec fuel r s1 with
        | err e s' =>
          rw [hr] at ihr
          simp only [IRes.tableOf, IRes.outputOf] at ihr
          simp [exec, hl, hlv, hr, IRes.tableOf, IRes.outputOf, ihr, ihl]
        | ok s2 =>
          rw [hr] at ihr
          simp only [IRes.tableOf, IRes.outputOf] at ihr
          cases hlv2 : s2.lastValue with
          | none => simp [exec, hl, hlv, hr, hlv2, IRes.tableOf, IRes.outputOf, ihr, ihl]
          | some b =>
            cases op <;>
              simp_all [exec, hl, hlv, hr, hlv2, IRes.tableOf, IRes.outputOf]
  | .logical op l r, fuel + 1, s, hx => by
    simp only [isExpr, Bool.and_eq_true] at hx
    obtain ⟨hxl, hxr⟩ := hx
    have ihl := exec_expr_frame l fuel s hxl
    cases hl : exec fuel l s with
    | err e s' =>
      rw [hl] at ihl
      simp only [IRes.tableOf, IRes.outputOf] at ihl
      simp [exec, hl, IRes.tableOf, IRes.outputOf, ihl]
    | ok s1 =>
      rw [hl] at ihl
      simp only [IRes.tableOf, IRes.outputOf] at ihl
      cases hlv : s1.lastValue with
      | none => simp [exec, hl, hlv, IRes.tableOf, IRes.outputOf, ihl]
      | some a =>
        by_cases hand : op = TokenType.AND ∧ a = 0
        · simp [exec, hl, hlv, if_pos hand, IRes.tableOf, IRes.outputOf, ihl]
        · by_cases hor : op = TokenType.OR ∧ a ≠ 0
          · simp [exec, hl, hlv, if_neg hand, if_pos hor, IRes.tableOf, IRes.outputOf, ihl]
          · have ihr := exec_expr_frame r fuel s1 hxr
            cases hr : exec fuel r s1 with
            | err e s' =>
              rw [hr] at ihr
              simp only [IRes.tableOf, IRes.outputOf] at ihr
              simp [exec, hl, hlv, if_neg hand, if_neg hor, hr,
                IRes.tableOf, IRes.outputOf, ihr, ihl]
            | ok s2 =>
              rw [hr] at ihr
              simp only [IRes.tableOf, IRes.outputOf] at ihr
              cases hlv2 : s2.lastValue with
              | none =>
                simp [exec, hl, hlv, if_neg hand, if_neg hor, hr, hlv2,
                  IRes.tableOf, IRes.outputOf, ihr, ihl]
              | some b =>
                simp [exec, hl, hlv, if_neg hand, if_neg hor, hr, hlv2,
                  IRes.tableOf, IRes.outputOf, ihr, ihl]
  | .assign n e, _ + 1, s, hx => by simp [isExpr] at hx
  | .printNode es, _ + 1, s, hx => by simp [isExpr] at hx
  | .ifNode c b, _ + 1, s, hx => by simp [isExpr] at hx
  | .whileNode c b, _ + 1, s, hx => by simp [isExpr] at hx
  | .forNode v a b bd, _ + 1, s, hx => by simp [isExpr] at hx

/-! ### Claim theorems: C3, C4, C8, C9 and closed counterexamples -/

/-- C3: a `/` BinaryOp evaluates its left operand first, then its right
operand (both always evaluated, failures propagate in that order); if the
right value is 0 it throws DivisionByZero, otherwise it yields the
truncated-toward-zero quotient. -/
theorem c3_division (fuel : Nat) (l r : AST) (s s1 s2 se : InterpState)
    (a b : Int) (e : Err) :
    (exec fuel l s = .err e se → exec (fuel + 1) (.binop .DIV l r) s = .err e se) ∧
    (exec fuel l s = .ok s1 → s1.lastValue = some a → exec fuel r s1 = .err e se →
      exec (fuel + 1) (.binop .DIV l r) s = .err e se) ∧
    (exec fuel l s = .ok s1 → s1.lastValue = some a → exec fuel r s1 = .ok s2 →
      s2.lastValue = some b → b = 0 →
      exec (fuel + 1) (.binop .DIV l r) s = .err .divisionByZero s2) ∧
    (exec fuel l s = .ok s1 → s1.lastValue = some a → exec fuel r s1 = .ok s2 →
      s2.lastValue = some b → b ≠ 0 →
      exec (fuel + 1) (.binop .DIV l r) s
        = .ok { s2 with lastValue := some (Int.tdiv a b) }) ∧
    Int.tdiv a b = (a * b).sign * ((a.natAbs / b.natAbs : Nat) : Int) := by
  refine ⟨?_, ?_, ?_, ?_, tdiv_trunc a b⟩
  · intro h
    simp [exec, h]
  · intro h1 h2 h3
    simp [exec, h1, h2, h3]
  · intro h1 h2 h3 h4 h5
    simp [exec, h1, h2, h3, h4, h5]
  · intro h1 h2 h3 h4 h5
    simp [exec, h1, h2, h3, h4, h5]

/-- Witness for C3 at `7 / (-2)`: the quotient is `Int.tdiv 7 (-2) = -3`,
truncated toward zero. -/
theorem c3_division_witness :
    exec 2 (AST.binop .DIV (.num 7) (.num (-2))) initState
      = .ok ⟨[], "", some (Int.tdiv 7 (-2))⟩ ∧
    Int.tdiv 7 (-2) = ((7 : Int) * (-2)).sign
      * ((((7 : Int).natAbs / ((-2 : Int)).natAbs : Nat)) : Int) :=
  ⟨(c3_division 1 (.num 7) (.num (-2)) initState ⟨[], "", some 7⟩ ⟨[], "", some (-2)⟩
      initState 7 (-2) .divisionByZero).2.2.2.1
      (by decide) (by decide) (by decide) (by decide) (by decide),
   (c3_division 1 (.num 7) (.num (-2)) initState ⟨[], "", some 7⟩ ⟨[], "", some (-2)⟩
      initState 7 (-2) .divisionByZero).2.2.2.2⟩

/-- C4: LogicalOp short-circuits. The left operand is evaluated first; for
AND with a false (zero) left value the result is false and the right operand
is irrelevant (never evaluated, so neither its errors nor its effects can
occur); for OR with a true left value the result is true and the right
operand is irrelevant; otherwise the right operand is evaluated and the two
truth values are combined. -/
theorem c4_shortcircuit (fuel : Nat) (l r r2 : AST) (s s1 s2 : InterpState) (a b : Int) :
    (exec fuel l s = .ok s1 → s1.lastValue = some a → a = 0 →
      exec (fuel + 1) (.logical .AND l r) s = .ok { s1 with lastValue := some 0 } ∧
      exec (fuel + 1) (.logical .AND l r) s = exec (fuel + 1) (.logical .AND l r2) s) ∧
    (exec fuel l s = .ok s1 → s1.lastValue = some a → a ≠ 0 →
      exec (fuel + 1) (.logical .OR l r) s = .ok { s1 with lastValue := some 1 } ∧
      exec (fuel + 1) (.logical .OR l r) s = exec (fuel + 1) (.logical .OR l r2) s) ∧
    (exec fuel l s = .ok s1 → s1.lastValue = some a → a ≠ 0 → exec fuel r s1 = .ok s2 →
      s2.lastValue = some b →
      exec (fuel + 1) (.logical .AND l r) s
        = .ok { s2 with lastValue := some (if b ≠ 0 then 1 else 0) }) ∧
    (exec fuel l s = .ok s1 → s1.lastValue = some a → a = 0 → exec fuel r s1 = .ok s2 →
      s2.lastValue = some b →
      exec (fuel + 1) (.logical .OR l r) s
        = .ok { s2 with lastValue := some (if b ≠ 0 then 1 else 0) }) := by
  refine ⟨?_, ?_, ?_, ?_⟩
  · intro h1 h2 h3
    constructor <;> simp [exec, h1, h2, h3]
  · intro h1 h2 h3
    constructor <;> simp [exec, h1, h2, h3]
  · intro h1 h2 h3 h4 h5
    simp [exec, h1, h2, h3, h4, h5]
  · intro h1 h2 h3 h4 h5
    simp [exec, h1, h2, h3, h4, h5]

/-- Witness for C4: `0 and (1/0)` at the node level yields false without
evaluating the division, and replacing the right operand changes nothing. -/
theorem c4_shortcircuit_witness :
    exec 4 (AST.logical .AND (.num 0) (.binop .DIV (.num 1) (.num 0))) initState
      = .ok ⟨[], "", some 0⟩ ∧
    exec 4 (AST.logical .AND (.num 0) (.binop .DIV (.num 1) (.num 0))) initState
      = exec 4 (AST.logical .AND (.num 0) (.num 5)) initState :=
  (c4_shortcircuit 3 (.num 0) (.binop .DIV (.num 1) (.num 0)) (.num 5) initState
    ⟨[], "", some 0⟩ ⟨[], "", some 0⟩ 0 0).1 (by decide) (by decide) (by decide)

/-- C8: `addOrUpdate` inserts when the name is absent, fails with TypeMismatch
when the name is present under a different stored type tag, and overwrites the
value when the tags agree; other names are unaffected. -/
theorem c8_addOrUpdate (t : Table) (name ty m : String) (v : Int) (e : Entry) :
    (t.get name = none → addOrUpdate t name ty v = .ok (t.set name ⟨ty, v⟩)) ∧
    (t.get name = some e → e.type ≠ ty →
      addOrUpdate t name ty v = .error (.typeMismatch name)) ∧
    (t.get name = some e → e.type = ty →
      addOrUpdate t name ty v = .ok (t.set name ⟨ty, v⟩)) ∧
    (t.set name ⟨ty, v⟩).get name = some ⟨ty, v⟩ ∧
    (m ≠ name → (t.set name ⟨ty, v⟩).get m = t.get m) := by
  refine ⟨?_, ?_, ?_, get_set_same t name _, fun hm => get_set_other t name m _ hm⟩
  · intro h
    unfold addOrUpdate
    rw [h]
  · intro h hne
    unfold addOrUpdate
    rw [h]
    simp [hne]
  · intro h he
    unfold addOrUpdate
    rw [h]
    simp [he]

/-- Witness for C8: a fresh insert, a same-tag overwrite, and a rejected
rebinding at a different tag. -/
theorem c8_addOrUpdate_witness :
    addOrUpdate [] "x" "INTEGER" 7 = .ok [("x", ⟨"INTEGER", 7⟩)] ∧
    addOrUpdate [("x", ⟨"INTEGER", 5⟩)] "x" "INTEGER" 7 = .ok [("x", ⟨"INTEGER", 7⟩)] ∧
    addOrUpdate [("x", ⟨"INTEGER", 5⟩)] "x" "BOOL" 7 = .error (.typeMismatch "x") :=
  ⟨(c8_addOrUpdate [] "x" "INTEGER" "y" 7 ⟨"INTEGER", 5⟩).1 (by decide),
   (c8_addOrUpdate [("x", ⟨"INTEGER", 5⟩)] "x" "INTEGER" "y" 7 ⟨"INTEGER", 5⟩).2.2.1
     (by decide) (by decide),
   (c8_addOrUpdate [("x", ⟨"INTEGER", 5⟩)] "x" "BOOL" "y" 7 ⟨"INTEGER", 5⟩).2.1
     (by decide) (by decide)⟩

/-- C9: evaluating a pure expression node (NumberLiteral, VariableRef,
BinaryOp, Comparison, LogicalOp, with pure expression children) leaves the
symbol table unchanged whether it succeeds or fails — and the output too;
only Assign and the For-loop variable update write the table. -/
theorem c9_expr_frame (a : AST) (fuel : Nat) (s : InterpState) (r : IRes)
    (hx : isExpr a = true) (hr : exec fuel a s = r) :
    r.tableOf = s.table ∧ r.outputOf = s.output := by
  subst hr
  exact exec_expr_frame a fuel s hx

/-- Witness for C9: a division node evaluated in a state with a bound
variable leaves the table (and output) untouched. -/
theorem c9_expr_frame_witness :
    isExpr (AST.binop .DIV (.varRef "x") (.num 2)) = true ∧
    exec 5 (AST.binop .DIV (.varRef "x") (.num 2)) ⟨[("x", ⟨"INTEGER", 9⟩)], "", none⟩
      = .ok ⟨[("x", ⟨"INTEGER", 9⟩)], "", some 4⟩ ∧
    (IRes.ok ⟨[("x", ⟨"INTEGER", 9⟩)], "", some 4⟩).tableOf
        = (⟨[("x", ⟨"INTEGER", 9⟩)], "", none⟩ : InterpState).table ∧
    (IRes.ok ⟨[("x", ⟨"INTEGER", 9⟩)], "", some 4⟩).outputOf
        = (⟨[("x", ⟨"INTEGER", 9⟩)], "", none⟩ : InterpState).output :=
  ⟨by decide, by decide,
   c9_expr_frame (AST.binop .DIV (.varRef "x") (.num 2)) 5
     ⟨[("x", ⟨"INTEGER", 9⟩)], "", none⟩ _ (by decide) (by decide)⟩

/-- C1 counterexample: running `for i = 1 to 3` with body `print(i)` executes
the body three times with i = 1, 2, 3 — but afterwards the symbol table binds
i to 3 (the final executed value), not to 4. The loop counter is a C++ local;
the table is written before each body run and never incremented past the end. -/
theorem c1_counterexample :
    exec 20 (AST.forNode "i" (.num 1) (.num 3) [.printNode [.varRef "i"]]) initState
      = .ok ⟨[("i", ⟨"INTEGER", 3⟩)], "1\n2\n3\n", some 3⟩ ∧
    Table.get [("i", ⟨"INTEGER", 3⟩)] "i" ≠ some ⟨"INTEGER", 4⟩ := by
  constructor
  · decide
  · decide

/-- C7 counterexample: when start > end (`for i = 5 to 1`) the body executes
zero times, but the loop variable is never bound at all — the binding to the
start value happens inside the loop, so it never occurs. -/
theorem c7_counterexample :
    exec 10 (AST.forNode "i" (.num 5) (.num 1) []) initState = .ok ⟨[], "", some 1⟩ ∧
    Table.get ([] : Table) "i" = none := by
  constructor
  · decide
  · decide

/-- C5 counterexample: the pipeline on the source text `0 and (1/0)` (and on
`1 or (1/0)`) does not complete: a bare condition is not a statement, so the
parser throws "Invalid statement" before any evaluation. No DivisionByZero
occurs, but only because nothing at all is evaluated. -/
theorem c5_counterexample :
    runProgram "0 and (1/0)" 50 = .err (.parseErr .invalidStatement) initState ∧
    runProgram "1 or (1/0)" 50 = .err (.parseErr .invalidStatement) initState := by
  constructor
  · decide
  · decide

/-- C5 amended: at the evaluator level the intended short-circuits do hold:
`AND(0, 1/0)` yields false and `OR(1, 1/0)` yields true, with no
DivisionByZero, while the full pipeline rejects both source texts as syntax
errors before evaluating anything. -/
theorem c5_shortcircuit :
    exec 10 (AST.logical .AND (.num 0) (.binop .DIV (.num 1) (.num 0))) initState
      = .ok ⟨[], "", some 0⟩ ∧
    exec 10 (AST.logical .OR (.num 1) (.binop .DIV (.num 1) (.num 0))) initState
      = .ok ⟨[], "", some 1⟩ ∧
    runProgram "0 and (1/0)" 50 = .err (.parseErr .invalidStatement) initState ∧
    runProgram "1 or (1/0)" 50 = .err (.parseErr .invalidStatement) initState := by
  refine ⟨by decide, by decide, by decide, by decide⟩

/-- C6 counterexample: `print(1, z)` with `z` unbound emits "1 " (the first
value and the pending separator) and then throws UndefinedVariable — the
output of a print statement is not atomic, and a failing print statement can
still produce output. -/
theorem c6_counterexample :
    exec 10 (AST.printNode [.num 1, .varRef "z"]) initState
      = .err (.undefinedVariable "z") ⟨[], "1 ", some 1⟩ ∧
    (IRes.err (.undefinedVariable "z") ⟨[], "1 ", some 1⟩).outputOf ≠ "" := by
  constructor
  · decide
  · decide

/-- C2 counterexample: the driver in `main` parses and executes one statement
at a time, so `print(1) +` (a syntax error in the second statement) still
emits "1\n" before the parser throws — while the parse-everything-first
driver emits nothing. The two drivers are not observationally equal on
programs with late syntax errors. -/
theorem c2_counterexample :
    runProgram "print(1) +" 50 = .err (.parseErr .invalidStatement) ⟨[], "1\n", some 1⟩ ∧
    runBatch "print(1) +" 50 = .err (.parseErr .invalidStatement) initState ∧
    DRes.outputOf (runProgram "print(1) +" 50) ≠ DRes.outputOf (runBatch "print(1) +" 50) := by
  refine ⟨by decide, by decide, by decide⟩

/-! ### C10: the TypeMismatch branch is unreachable -/

theorem inv_ok {s : InterpState} (h : intOnly s.table) : Inv (.ok s) :=
  ⟨h, by intro n st hc; exact IRes.noConfusion hc⟩

theorem inv_err {e : Err} {s : InterpState} (h : intOnly s.table)
    (hne : ∀ n, e ≠ .typeMismatch n) : Inv (.err e s) := by
  refine ⟨h, ?_⟩
  intro n st hc
  injection hc with h1 h2
  exact hne n h1

/-- Every visit function preserves the INTEGER-only table invariant and never
produces a TypeMismatch throw: the interpreter only ever writes with the tag
"INTEGER", so `addOrUpdate` never takes its error branch. -/
theorem run_inv : ∀ fuel : Nat,
    (∀ a s, intOnly s.table → Inv (exec fuel a s)) ∧
    (∀ l s, intOnly s.table → Inv (execList fuel l s)) ∧
    (∀ c body s, intOnly s.table → Inv (whileLoop fuel c body s)) ∧
    (∀ v i b body s, intOnly s.table → Inv (forLoop fuel v i b body s)) ∧
    (∀ first es s, intOnly s.table → Inv (printLoop fuel first es s)) := by
  intro fuel
  induction fuel with
  | zero =>
    refine ⟨?_, ?_, ?_, ?_, ?_⟩ <;> intros <;>
      exact inv_err (by assumption) (by intro n; simp)
  | succ fuel ih =>
    obtain ⟨ihE, ihL, ihW, ihF, ihP⟩ := ih
    have hexec : ∀ a s, intOnly s.table → Inv (exec (fuel + 1) a s) := by
      intro a s hs
      cases a with
      | num v => exact inv_ok hs
      | varRef name =>
        simp only [exec]
        cases hg : s.table.get name with
        | none => exact inv_err hs (by intro n; simp)
        | some e => exact inv_ok hs
      | binop op l r =>
        simp only [exec]
        cases hl : exec fuel l s with
        | err e s2 =>
          have h1 := ihE l s hs
          rw [hl] at h1
          exact h1
        | ok s1 =>
          have h1 := ihE l s hs
          rw [hl] at h1
          have hs1 : intOnly s1.table := h1.1
          dsimp only
          cases hlv : s1.lastValue with
          | none => exact inv_err hs1 (by intro n; simp)
          | some a2 =>
            dsimp only
            cases hr : exec fuel r s1 with
            | err e s2 =>
              have h2 := ihE r s1 hs1
              rw [hr] at h2
              exact h2
            | ok s2 =>
              have h2 := ihE r s1 hs1
              rw [hr] at h2
              have hs2 : intOnly s2.table := h2.1
              dsimp only
              cases hlv2 : s2.lastValue with
              | none => exact inv_err hs2 (by intro n; simp)
              | some b =>
                dsimp only
                split
                · exact inv_ok hs2
                · exact inv_ok hs2
                · exact inv_ok hs2
                · split
                  · exact inv_err hs2 (by intro n; simp)
                  · exact inv_ok hs2
                · exact inv_err hs2 (by intro n; simp)
      | cmp op l r =>
        simp only [exec]
        cases hl : exec fuel l s with
        | err e s2 =>
          have h1 := ihE l s hs
          rw [hl] at h1
          exact h1
        | ok s1 =>
          have h1 := ihE l s hs
          rw [hl] at h1
          have hs1 : intOnly s1.table := h1.1
          dsimp only
          cases hlv : s1.lastValue with
          | none => exact inv_err hs1 (by intro n; simp)
          | some a2 =>
            dsimp only
            cases hr : exec fuel r s1 with
            | err e s2 =>
              have h2 := ihE r s1 hs1
              rw [hr] at h2
              exact h2
            | ok s2 =>
              have h2 := ihE r s1 hs1
              rw [hr] at h2
              have hs2 : intOnly s2.table := h2.1
              dsimp only
              cases hlv2 : s2.lastValue with
              | none => exact inv_err hs2 (by intro n; simp)
              | some b =>
                dsimp only
                split <;>
                  first
                    | exact inv_ok hs2
                    | exact inv_err hs2 (by intro n; simp)
      | logical op l r =>
        simp only [exec]
        cases hl : exec fuel l s with
        | err e s2 =>
          have h1 := ihE l s hs
          rw [hl] at h1
          exact h1
        | ok s1 =>
          have h1 := ihE l s hs
          rw [hl] at h1
          have hs1 : intOnly s1.table := h1.1
          dsimp only
          cases hlv : s1.lastValue with
          | none => exact inv_err hs1 (by intro n; simp)
          | some a2 =>
            dsimp only
            split
            · exact inv_ok hs1
            · split
              · exact inv_ok hs1
              · cases hr : exec fuel r s1 with
                | err e s2 =>
                  have h2 := ihE r s1 hs1
                  rw [hr] at h2
                  exact h2
                | ok s2 =>
                  have h2 := ihE r s1 hs1
                  rw [hr] at h2
                  have hs2 : intOnly s2.table := h2.1
                  dsimp only
                  cases hlv2 : s2.lastValue with
                  | none => exact inv_err hs2 (by intro n; simp)
                  | some b => exact inv_ok hs2
      | assign name e =>
        simp only [exec]
        cases he : exec fuel e s with
        | err er s2 =>
          have h1 := ihE e s hs
          rw [he] at h1
          exact h1
        | ok s1 =>
          have h1 := ihE e s hs
          rw [he] at h1
          have hs1 : intOnly s1.table := h1.1
          dsimp only
          cases hlv : s1.lastValue with
          | none => exact inv_err hs1 (by intro n; simp)
          | some v =>
            dsimp only
            obtain ⟨hok, hint⟩ := addOrUpdate_int s1.table name v hs1
            rw [hok]
            exact inv_ok hint
      | printNode es => exact ihP true es s hs
      | ifNode c body =>
        simp only [exec]
        cases hc : exec fuel c s with
        | err e s2 =>
          have h1 := ihE c s hs
          rw [hc] at h1
          exact h1
        | ok s1 =>
          have h1 := ihE c s hs
          rw [hc] at h1
          have hs1 : intOnly s1.table := h1.1
          dsimp only
          cases hlv : s1.lastValue with
          | none => exact inv_err hs1 (by intro n; simp)
          | some v =>
            dsimp only
            split
            · exact ihL body s1 hs1
            · exact inv_ok hs1
      | whileNode c body => exact ihW c body s hs
      | forNode v se ee body =>
        simp only [exec]
        cases hse : exec fuel se s with
        | err e s2 =>
          have h1 := ihE se s hs
          rw [hse] at h1
          exact h1
        | ok s1 =>
          have h1 := ihE se s hs
          rw [hse] at h1
          have hs1 : intOnly s1.table := h1.1
          dsimp only
          cases hlv : s1.lastValue with
          | none => exact inv_err hs1 (by intro n; simp)
          | some a2 =>
            dsimp only
            cases hee : exec fuel ee s1 with
            | err e s2 =>
              have h2 := ihE ee s1 hs1
              rw [hee] at h2
              exact h2
            | ok s2 =>
              have h2 := ihE ee s1 hs1
              rw [hee] at h2
              have hs2 : intOnly s2.table := h2.1
              dsimp only
              cases hlv2 : s2.lastValue with
              | none => exact inv_err hs2 (by intro n; simp)
              | some b => exact ihF v a2 b body s2 hs2
    refine ⟨hexec, ?_, ?_, ?_, ?_⟩
    · intro l s hs
      cases l with
      | nil => exact inv_ok hs
      | cons a as =>
        simp only [execList]
        cases ha : exec fuel a s with
        | err e s2 =>
          have h1 := ihE a s hs
          rw [ha] at h1
          exact h1
        | ok s1 =>
          have h1 := ihE a s hs
          rw [ha] at h1
          exact ihL as s1 h1.1
    · intro c body s hs
      simp only [whileLoop]
      cases hc : exec fuel c s with
      | err e s2 =>
        have h1 := ihE c s hs
        rw [hc] at h1
        exact h1
      | ok s1 =>
        have h1 := ihE c s hs
        rw [hc] at h1
        have hs1 : intOnly s1.table := h1.1
        dsimp only
        cases hlv : s1.lastValue with
        | none => exact inv_err hs1 (by intro n; simp)
        | some v =>
          dsimp only
          split
          · exact inv_ok hs1
          · cases hb : execList fuel body s1 with
            | err e s2 =>
              have h2 := ihL body s1 hs1
              rw [hb] at h2
              exact h2
            | ok s2 =>
              have h2 := ihL body s1 hs1
              rw [hb] at h2
              exact ihW c body s2 h2.1
    · intro v i b body s hs
      simp only [forLoop]
      split
      · obtain ⟨hok, hint⟩ := addOrUpdate_int s.table v i hs
        rw [hok]
        dsimp only
        cases hb : execList fuel body { s with table := s.table.set v ⟨"INTEGER", i⟩ } with
        | err e s2 =>
          have h2 := ihL body { s with table := s.table.set v ⟨"INTEGER", i⟩ } hint
          rw [hb] at h2
          exact h2
        | ok s1 =>
          have h2 := ihL body { s with table := s.table.set v ⟨"INTEGER", i⟩ } hint
          rw [hb] at h2
          exact ihF v (i + 1) b body s1 h2.1
      · exact inv_ok hs
    · intro first es s hs
      cases es with
      | nil => exact inv_ok hs
      | cons e es =>
        simp only [printLoop]
        have hs0 : intOnly (if first then s
            else { s with output := s.output ++ " " }).table := by
          split <;> exact hs
        cases he : exec fuel e (if first then s
            else { s with output := s.output ++ " " }) with
        | err er s2 =>
          have h1 := ihE e _ hs0
          rw [he] at h1
          exact h1
        | ok s1 =>
          have h1 := ihE e _ hs0
          rw [he] at h1
          have hs1 : intOnly s1.table := h1.1
          dsimp only
          cases hlv : s1.lastValue with
          | none => exact inv_err hs1 (by intro n; simp)
          | some v => exact ihP false es _ hs1

/-- C10: every symbol-table write the interpreter performs (Assign and the
For-loop variable update) uses the type tag "INTEGER", so no run of any
program ever fails with TypeMismatch — the error branch of `addOrUpdate` is
unreachable from `main`. -/
theorem c10_no_type_mismatch (text : String) (fuel : Nat) (e : TopErr)
    (s : InterpState) (n : String) (h : runProgram text fuel = .err e s) :
    e ≠ .runErr (.typeMismatch n) := by
  have hloop : ∀ (f : Nat) (ps : PSt) (st : InterpState), intOnly st.table →
      ∀ e2 s2, interleavedLoop f ps st = .err e2 s2 →
        e2 ≠ .runErr (.typeMismatch n) := by
    intro f
    induction f with
    | zero =>
      intro ps st hst e2 s2 h2
      simp only [interleavedLoop] at h2
      cases h2
      simp
    | succ f ihf =>
      intro ps st hst e2 s2 h2
      simp only [interleavedLoop] at h2
      by_cases he : ps.cur.type = .EOF_TOKEN
      · rw [if_pos he] at h2
        cases h2
      · rw [if_neg he] at h2
        cases hst2 : statement f ps with
        | error pe =>
          rw [hst2] at h2
          cases h2
          simp
        | ok pair =>
          obtain ⟨ast, ps2⟩ := pair
          rw [hst2] at h2
          dsimp only at h2
          cases hex : exec f ast st with
          | err er s3 =>
            rw [hex] at h2
            cases h2
            have hinv := (run_inv f).1 ast st hst
            rw [hex] at hinv
            intro hc
            exact hinv.2 n _ (by rw [TopErr.runErr.inj hc])
          | ok s3 =>
            rw [hex] at h2
            have hinv := (run_inv f).1 ast st hst
            rw [hex] at hinv
            exact ihf ps2 s3 hinv.1 e2 s2 h2
  unfold runProgram at h
  cases hmk : mkParser text with
  | error pe =>
    rw [hmk] at h
    cases h
    simp
  | ok ps =>
    rw [hmk] at h
    exact hloop fuel ps initState (by intro p hp; cases hp) e s h

/-- Witness for C10: the run of `0` fails with a parse error, which is not a
TypeMismatch. -/
theorem c10_no_type_mismatch_witness :
    runProgram "0" 10 = .err (.parseErr .invalidStatement) initState ∧
    TopErr.parseErr .invalidStatement ≠ .runErr (.typeMismatch "x") :=
  ⟨by decide,
   c10_no_type_mismatch "0" 10 (.parseErr .invalidStatement) initState "x" (by decide)⟩

/-! ### C2 amended: per-statement materialization and driver equivalence -/

/-- C2 amended: the driver interleaves per statement — each statement's AST is
fully materialized before that statement runs, and for every program that
parses to completion the interleaved driver of `main` is observationally
equal to parsing the whole program first and then evaluating the statement
list. (The counterexample shows the equivalence fails on programs whose later
statements have syntax errors.) -/
theorem c2_driver_equiv (fuel : Nat) : ∀ (ps : PSt) (s : InterpState) (asts : List AST),
    parseLoop fuel ps = .ok asts → interleavedLoop fuel ps s = execProgram fuel asts s := by
  induction fuel with
  | zero =>
    intro ps s asts h
    simp [parseLoop] at h
  | succ fuel ih =>
    intro ps s asts h
    simp only [parseLoop] at h
    by_cases he : ps.cur.type = .EOF_TOKEN
    · rw [if_pos he] at h
      cases h
      simp [interleavedLoop, he, execProgram]
    · rw [if_neg he] at h
      cases hst : statement fuel ps with
      | error e =>
        rw [hst] at h
        cases h
      | ok pair =>
        obtain ⟨ast, ps2⟩ := pair
        rw [hst] at h
        dsimp only at h
        cases hpl : parseLoop fuel ps2 with
        | error e =>
          rw [hpl] at h
          cases h
        | ok asts2 =>
          rw [hpl] at h
          cases h
          simp only [interleavedLoop, if_neg he, hst, execProgram]
          cases hex : exec fuel ast s with
          | err e s2 => rfl
          | ok s2 => exact ih ps2 s2 asts2 hpl

/-- Witness for C2: on the fully parsing program `x = 1` the two drivers
agree. -/
theorem c2_driver_equiv_witness :
    parseLoop 20 ⟨⟨.ID, "x"⟩, [' ', '=', ' ', '1']⟩ = .ok [AST.assign "x" (.num 1)] ∧
    interleavedLoop 20 ⟨⟨.ID, "x"⟩, [' ', '=', ' ', '1']⟩ initState
      = execProgram 20 [AST.assign "x" (.num 1)] initState :=
  ⟨by rfl, c2_driver_equiv 20 ⟨⟨.ID, "x"⟩, [' ', '=', ' ', '1']⟩ initState
    [AST.assign "x" (.num 1)] (by rfl)⟩

/-! ### C1/C7 amended: the for loop -/

theorem joinSep_empty_cons (x : String) (xs : List String) :
    joinSep "" (x :: xs) = x ++ joinSep "" xs := by
  cases xs with
  | nil => simp [joinSep]
  | cons y ys =>
    show x ++ "" ++ joinSep "" (y :: ys) = x ++ joinSep "" (y :: ys)
    rw [String.append_empty]

theorem intRange_cons (a b : Int) (h : a ≤ b) :
    intRange a b = a :: intRange (a + 1) b := by
  unfold intRange
  have h1 : (b + 1 - a).toNat = (b + 1 - (a + 1)).toNat + 1 := by omega
  rw [h1]
  rfl

theorem rangeOut_cons (a b : Int) (h : a ≤ b) :
    rangeOut a b = (toString a ++ "\n") ++ rangeOut (a + 1) b := by
  unfold rangeOut
  rw [intRange_cons a b h, List.map_cons, joinSep_empty_cons]

theorem rangeOut_last (b : Int) : rangeOut b b = toString b ++ "\n" := by
  unfold rangeOut intRange
  have h1 : (b + 1 - b).toNat = 1 := by omega
  rw [h1]
  simp [intRangeAux, joinSep]

/-- Executing the body `print(v)` once: reads the loop variable, emits one
line, leaves the table unchanged. -/
theorem exec_print_var (v : String) (fuel : Nat) (s : InterpState) (w : Int)
    (hf : 4 ≤ fuel) (hg : s.table.get v = some ⟨"INTEGER", w⟩) :
    execList fuel [.printNode [.varRef v]] s
      = .ok { s with output := s.output ++ toString w ++ "\n", lastValue := some w } := by
  obtain ⟨f, rfl⟩ : ∃ f, fuel = f + 4 := ⟨fuel - 4, by omega⟩
  simp [execList, exec, printLoop, hg, String.append_assoc]

/-- The for-loop of the interpreter with body `print(v)`: writes v before
each body run with the values i, i+1, …, b in order (each echoed to the
output), and leaves v bound to b — the final iterated value — after the
loop. -/
theorem forLoop_print (v : String) : ∀ (fuel : Nat) (i b : Int) (s : InterpState),
    i ≤ b → (b - i).toNat + 6 ≤ fuel → intCompat s.table v →
    forLoop fuel v i b [.printNode [.varRef v]] s
      = .ok ⟨s.table.set v ⟨"INTEGER", b⟩, s.output ++ rangeOut i b, some b⟩ := by
  intro fuel
  induction fuel with
  | zero =>
    intro i b s h1 h2 h3
    omega
  | succ fuel ih =>
    intro i b s hib hfuel hcompat
    simp only [forLoop, if_pos hib]
    rw [addOrUpdate_compat s.table v i hcompat]
    dsimp only
    have hgv : (Table.set s.table v ⟨"INTEGER", i⟩).get v = some ⟨"INTEGER", i⟩ :=
      get_set_same s.table v _
    rw [exec_print_var v fuel { s with table := s.table.set v ⟨"INTEGER", i⟩ } i
      (by omega) hgv]
    dsimp only
    by_cases hlast : i = b
    · subst hlast
      have hstop : ¬ (i + 1 ≤ i) := by omega
      obtain ⟨f, rfl⟩ : ∃ f, fuel = f + 1 := ⟨fuel - 1, by omega⟩
      simp only [forLoop, if_neg hstop]
      rw [rangeOut_last, String.append_assoc]
    · have hlt : i + 1 ≤ b := by omega
      have hcompat2 : intCompat (Table.set s.table v ⟨"INTEGER", i⟩) v :=
        Or.inr ⟨_, get_set_same s.table v _, rfl⟩
      rw [ih (i + 1) b _ hlt (by omega) hcompat2]
      dsimp only
      rw [set_absorb, rangeOut_cons i b hib]
      simp [String.append_assoc]

/-! ### C6 amended: print emits incrementally -/

theorem joinSep_cons (sep x : String) (xs : List String) :
    joinSep sep (x :: xs) = x ++ (if xs = [] then "" else sep ++ joinSep sep xs) := by
  cases xs with
  | nil => simp [joinSep, String.append_empty]
  | cons y ys =>
    show x ++ sep ++ joinSep sep (y :: ys) = _
    rw [if_neg (by simp), String.append_assoc]

theorem ExprsEval_eq_nil {t : Table} {es : List AST} {vs : List Int}
    (h : ExprsEval t es vs) : es = [] ↔ vs = [] := by
  cases h <;> simp

theorem getLast_cons_ex : ∀ (ws : List Int) (w : Int), ∃ u, (w :: ws).getLast? = some u
  | [], w => ⟨w, by simp⟩
  | x :: xs, w => by
    obtain ⟨u, hu⟩ := getLast_cons_ex xs x
    exact ⟨u, by rw [List.getLast?_cons_cons]; exact hu⟩

/-- The print loop over a sequence of pure expressions that all evaluate:
emits the space-separated values (with a leading space when not first) and a
final newline; `lastValue` ends at the last value printed. -/
theorem printLoop_expr_ok (t : Table) : ∀ (es : List AST) (vs : List Int),
    ExprsEval t es vs → ∀ (fuel : Nat) (s : InterpState) (first : Bool),
    s.table = t → (∀ e ∈ es, depthE e + es.length ≤ fuel) →
    printLoop (fuel + 1) first es s
      = .ok { s with
          output := s.output ++ (if first = true ∨ es.isEmpty = true then "" else " ")
            ++ joinSep " " (vs.map toString) ++ "\n",
          lastValue := (match vs.getLast? with
            | some w => some w
            | none => s.lastValue) } := by
  intro es vs h
  induction h with
  | nil =>
    intro fuel s first _ _
    simp [printLoop, joinSep, String.append_empty]
  | @cons e2 es2 v2 vs2 hx hv htail ih =>
    intro fuel s first hst hd
    have hfe : depthE e2 + (es2.length + 1) ≤ fuel := by
      have := hd e2 (by simp)
      simpa using this
    have hd1 : 1 ≤ depthE e2 := by
      cases e2 <;> simp [depthE]
    obtain ⟨f, rfl⟩ : ∃ f, fuel = f + 1 := ⟨fuel - 1, by omega⟩
    simp only [printLoop]
    have hdtail : ∀ e ∈ es2, depthE e + es2.length ≤ f := by
      intro e he
      have := hd e (by simp [he])
      simp at this ⊢
      omega
    cases first with
    | true =>
      have hexe : exec (f + 1) e2 s = .ok { s with lastValue := some v2 } :=
        (exec_expr e2 (f + 1) s hx (by omega)).1 v2 (by rw [hst]; exact hv)
      rw [if_pos rfl, hexe]
      dsimp only
      rw [ih f { s with lastValue := some v2, output := s.output ++ toString v2 }
        false (by simpa using hst) hdtail]
      cases es2 with
      | nil =>
        cases htail
        simp [joinSep, String.append_empty, String.append_assoc]
      | cons x xs =>
        cases htail with
        | @cons _ _ w ws hx2 hv2 htail2 =>
          obtain ⟨u, hu⟩ := getLast_cons_ex ws w
          rw [List.map_cons, joinSep_cons, List.getLast?_cons_cons, hu]
          simp [joinSep_cons, String.append_assoc]
    | false =>
      have hexe : exec (f + 1) e2 { s with output := s.output ++ " " }
          = .ok { s with output := s.output ++ " ", lastValue := some v2 } :=
        (exec_expr e2 (f + 1) { s with output := s.output ++ " " } hx (by omega)).1 v2
          (by
            rw [show ({ s with output := s.output ++ " " } : InterpState).table = t
              from hst]
            exact hv)
      rw [if_neg (by simp), hexe]
      dsimp only
      rw [ih f { s with output := (s.output ++ " ") ++ toString v2, lastValue := some v2 }
        false (by simpa using hst) hdtail]
      cases es2 with
      | nil =>
        cases htail
        simp [joinSep, String.append_empty, String.append_assoc]
      | cons x xs =>
        cases htail with
        | @cons _ _ w ws hx2 hv2 htail2 =>
          obtain ⟨u, hu⟩ := getLast_cons_ex ws w
          rw [List.map_cons, joinSep_cons, List.getLast?_cons_cons, hu]
          simp [joinSep_cons, String.append_assoc]

theorem intRangeAux_length : ∀ (n : Nat) (a : Int), (intRangeAux n a).length = n
  | 0, _ => rfl
  | n + 1, a => by simp [intRangeAux, intRangeAux_length n]

/-- C1 amended: `for v = a to b` with a body that echoes v executes its body
once per value a, a+1, …, b — (b+1−a) times, the variable written before each
body run — and after the loop v remains bound to b, the final executed value
(not one past it): the one-past increment happens only on the loop's internal
counter and is never written to the symbol table. -/
theorem c1_for_final_binding (fuel : Nat) (v : String) (a b : Int) (s : InterpState)
    (hab : a ≤ b) (hfuel : (b - a).toNat + 6 ≤ fuel) (hcompat : intCompat s.table v) :
    exec (fuel + 1) (.forNode v (.num a) (.num b) [.printNode [.varRef v]]) s
      = .ok ⟨s.table.set v ⟨"INTEGER", b⟩, s.output ++ rangeOut a b, some b⟩ ∧
    (s.table.set v ⟨"INTEGER", b⟩).get v = some ⟨"INTEGER", b⟩ ∧
    (intRange a b).length = (b + 1 - a).toNat := by
  refine ⟨?_, get_set_same s.table v _, intRangeAux_length _ a⟩
  obtain ⟨f, rfl⟩ : ∃ f, fuel = f + 1 := ⟨fuel - 1, by omega⟩
  have h1 : exec (f + 1) (.num a) s = .ok { s with lastValue := some a } := by
    simp [exec]
  have h2 : exec (f + 1) (.num b) { s with lastValue := some a }
      = .ok { s with lastValue := some b } := by
    simp [exec]
  simp only [exec, h1, h2]
  rw [forLoop_print v (f + 1) a b { s with lastValue := some b } hab (by omega) hcompat]

/-- Witness for C1: `for i = 1 to 3` with body `print(i)` prints 1, 2, 3 (the
body runs 3 times) and leaves i bound to 3. -/
theorem c1_for_final_binding_witness :
    exec 10 (AST.forNode "i" (.num 1) (.num 3) [.printNode [.varRef "i"]]) initState
      = .ok ⟨[("i", ⟨"INTEGER", 3⟩)], "1\n2\n3\n", some 3⟩ ∧
    Table.get [("i", ⟨"INTEGER", 3⟩)] "i" = some ⟨"INTEGER", 3⟩ ∧
    (intRange 1 3).length = 3 :=
  c1_for_final_binding 9 "i" 1 3 initState (by decide) (by decide) (Or.inl rfl)

/-- C7 amended: the bounds of a For node are each evaluated exactly once,
before the loop (the loop is a function of their values only, so replacing
the bound expressions by any others with the same values changes nothing);
when start ≤ end the first body iteration runs with the variable bound to the
start value; when start > end the body runs zero times — and then the loop
variable is NOT bound to the start value, since the write happens inside the
loop. -/
theorem c7_for_bounds (fuel : Nat) (v : String) (se ee se2 ee2 : AST)
    (body : List AST) (s s1 s2 : InterpState) (a b : Int) :
    (exec fuel se s = .ok s1 → s1.lastValue = some a →
     exec fuel ee s1 = .ok s2 → s2.lastValue = some b →
      exec (fuel + 1) (.forNode v se ee body) s = forLoop fuel v a b body s2) ∧
    (exec fuel se s = .ok s1 → s1.lastValue = some a →
     exec fuel ee s1 = .ok s2 → s2.lastValue = some b →
     exec fuel se2 s = .ok s1 → exec fuel ee2 s1 = .ok s2 →
      exec (fuel + 1) (.forNode v se ee body) s
        = exec (fuel + 1) (.forNode v se2 ee2 body) s) ∧
    (b < a → forLoop (fuel + 1) v a b body s2 = .ok s2) ∧
    (a ≤ b → (b - a).toNat + 6 ≤ fuel → intCompat s2.table v →
      forLoop fuel v a b [.printNode [.varRef v]] s2
        = .ok ⟨s2.table.set v ⟨"INTEGER", b⟩,
            s2.output ++ ((toString a ++ "\n") ++ rangeOut (a + 1) b), some b⟩) := by
  refine ⟨?_, ?_, ?_, ?_⟩
  · intro h1 h2 h3 h4
    simp [exec, h1, h2, h3, h4]
  · intro h1 h2 h3 h4 h5 h6
    simp [exec, h1, h2, h3, h4, h5, h6]
  · intro hba
    have hn : ¬ (a ≤ b) := by omega
    simp [forLoop, hn]
  · intro hab hfuel hcompat
    rw [forLoop_print v fuel a b s2 hab hfuel hcompat, rangeOut_cons a b hab]

/-- Witness for C7: `for i = 5 to 1` evaluates its bounds once, runs the body
zero times, and binds nothing. -/
theorem c7_for_bounds_witness :
    exec 11 (AST.forNode "i" (.num 5) (.num 1) []) initState
      = forLoop 10 "i" 5 1 [] ⟨[], "", some 1⟩ ∧
    forLoop 11 "i" 5 1 [] ⟨[], "", some 1⟩ = .ok ⟨[], "", some 1⟩ :=
  ⟨(c7_for_bounds 10 "i" (.num 5) (.num 1) (.num 5) (.num 1) [] initState
      ⟨[], "", some 5⟩ ⟨[], "", some 1⟩ 5 1).1 (by decide) (by decide) (by decide) (by decide),
   (c7_for_bounds 10 "i" (.num 5) (.num 1) (.num 5) (.num 1) [] initState
      ⟨[], "", some 5⟩ ⟨[], "", some 1⟩ 5 1).2.2.1 (by decide)⟩

/-- C6 amended: a Print node evaluates its expressions left-to-right and
emits incrementally — each value right after its evaluation, a space before
every expression but the first, a newline only after all succeed. When every
expression evaluates, one whole line of space-separated values is emitted;
when the FIRST expression fails, no output is produced; but when a later
expression fails, the earlier values and the pending separator have already
been emitted (see the counterexample), so the output is not atomic. -/
theorem c6_print (fuel : Nat) (e : AST) (es : List AST) (vs : List Int)
    (s : InterpState) (er : Err) :
    (ExprsEval s.table es vs → (∀ x ∈ es, depthE x + es.length ≤ fuel) →
      exec (fuel + 2) (.printNode es) s
        = .ok { s with
            output := s.output ++ joinSep " " (vs.map toString) ++ "\n",
            lastValue := (match vs.getLast? with
              | some w => some w
              | none => s.lastValue) }) ∧
    (isExpr e = true → depthE e ≤ fuel → evalE e s.table = .error er →
      (exec (fuel + 2) (.printNode (e :: es)) s).errOf = some er ∧
      (exec (fuel + 2) (.printNode (e :: es)) s).outputOf = s.output ∧
      (exec (fuel + 2) (.printNode (e :: es)) s).tableOf = s.table) ∧
    exec 10 (.printNode [.num 1, .num 2, .varRef "z"]) initState
      = .err (.undefinedVariable "z") ⟨[], "1 2 ", some 2⟩ := by
  refine ⟨?_, ?_, by decide⟩
  · intro hev hd
    have h := printLoop_expr_ok s.table es vs hev fuel s true rfl hd
    simp only [exec]
    rw [h]
    simp [String.empty_append, String.append_empty]
  · intro hx hdep herr
    obtain ⟨lv, hex⟩ := (exec_expr e fuel s hx hdep).2 er herr
    simp only [exec, printLoop]
    rw [if_pos trivial, hex]
    simp [IRes.errOf, IRes.outputOf, IRes.tableOf]

/-- Witness for C6: `print(1, 2)` emits the full line "1 2"; `print(1, 2, z)`
with `z` unbound emits the partial output "1 2 " and then fails. -/
theorem c6_print_witness :
    exec 7 (AST.printNode [.num 1, .num 2]) initState = .ok ⟨[], "1 2\n", some 2⟩ ∧
    exec 10 (AST.printNode [.num 1, .num 2, .varRef "z"]) initState
      = .err (.undefinedVariable "z") ⟨[], "1 2 ", some 2⟩ :=
  ⟨(c6_print 5 (.varRef "z") [.num 1, .num 2] [1, 2] initState (.undefinedVariable "z")).1
     (ExprsEval.cons (by decide) (by rfl)
       (ExprsEval.cons (by decide) (by rfl) ExprsEval.nil))
     (by decide),
   (c6_print 5 (.varRef "z") [.num 1, .num 2] [1, 2] initState (.undefinedVariable "z")).2.2⟩

end Klang
